import Mathlib

/-!
Verification development for the `protosign` request-signing library

This file gives a shallow embedding, in Lean 4, of the Go package
`github.com/vasmik/protosign`: a service-to-service trust protocol in which
the caller signs a short-lived JWT binding `{issuer, subject, method, path}`
with an RSA private key, and the callee validates the token against a
background-refreshed keychain of public keys.

Modelling conventions:

* RSA signing/verification and PEM encoding are the external trusted
  primitives of the protocol; they are embedded symbolically: a key pair is
  identified by a natural number, PEM blobs are constructors carrying that
  identifier, and an RS256 signature verifies against a public key exactly
  when the key identifiers agree.  The compact JWT serialization is likewise
  abstracted: a token travels as a structured value carrying its claims,
  declared algorithm and signing-key identifier.
* Time is modelled at Unix-seconds resolution as `Int`, matching
  `time.Time.Unix()` which is the only clock granularity the code stores.
* The claim-validation logic of the vendored dependency
  `github.com/dgrijalva/jwt-go v3.2.0` (`StandardClaims.Valid`,
  `verifyExp`/`verifyIat`/`verifyNbf` with `required = false`, and the
  parser flow of `Parser.ParseWithClaims`) is embedded faithfully from that
  library's source, since the repository's validator delegates to it.
* Go maps used only for point lookups are embedded as functions
  `String → Option _`; filesystem / S3 listings and reads are oracles
  passed explicitly as data.
* The `Authorization` header is a list of values (as in `net/http.Header`);
  `Header.Get` reads the first value, `Header.Add` appends.
-/

/-- Byte strings that occur as key material: symbolic PEM blobs for public
and private RSA keys (identified by a key-pair id), or raw uninterpreted
bytes. -/
inductive KBytes : Type where
  | pubPem (k : Nat)
  | privPem (k : Nat)
  | raw (s : String)
deriving DecidableEq, Repr

/-- Model of `jwt.ParseRSAPublicKeyFromPEM`: succeeds exactly on a public-key PEM
blob, returning the key identifier. -/
def parseRSAPublicKeyFromPEM : KBytes → Except String Nat
  | .pubPem k => .ok k
  | _ => .error "Invalid Key: Key must be PEM encoded PKCS1 or PKCS8 private key"

/-- Model of `jwt.ParseRSAPrivateKeyFromPEM`: succeeds exactly on a private-key PEM
blob, returning the key identifier. -/
def parseRSAPrivateKeyFromPEM : KBytes → Except String Nat
  | .privPem k => .ok k
  | _ => .error "Invalid Key: Key must be PEM encoded PKCS1 or PKCS8 private key"

/-- The claims structure of `protosign` (src/unnamed/part_000): the two
custom binding fields `mtd`/`pth` plus the embedded
`jwt.StandardClaims` fields the package uses (`iss`, `sub`, `exp`) and the
two temporal fields `iat`/`nbf` that `StandardClaims.Valid` also inspects
(the `Signer` never sets them, leaving them `0`). -/
structure TokenClaims : Type where
  method : String
  path : String
  issuer : String
  subject : String
  expiresAt : Int
  issuedAt : Int
  notBefore : Int
deriving DecidableEq, Repr

/-- Model of `jwt-go v3.2.0` `verifyExp`: a zero expiry is treated as absent and
passes when not required; otherwise the token is valid while
`now <= exp`. -/
def verifyExp (exp now : Int) (required : Bool) : Bool :=
  if exp = 0 then !required else decide (now ≤ exp)

/-- Model of `jwt-go v3.2.0` `verifyIat`: zero means absent; otherwise requires
`now >= iat`. -/
def verifyIat (iat now : Int) (required : Bool) : Bool :=
  if iat = 0 then !required else decide (iat ≤ now)

/-- Model of `jwt-go v3.2.0` `verifyNbf`: zero means absent; otherwise requires
`now >= nbf`. -/
def verifyNbf (nbf now : Int) (required : Bool) : Bool :=
  if nbf = 0 then !required else decide (nbf ≤ now)

/-- Model of `jwt.StandardClaims.Valid` at clock reading `now` (all three checks are
non-required; `TokenClaims` does not override `Valid`, so the promoted
method is this one). -/
def TokenClaims.validAt (c : TokenClaims) (now : Int) : Bool :=
  verifyExp c.expiresAt now false && verifyIat c.issuedAt now false
    && verifyNbf c.notBefore now false

/-- Signing algorithms relevant to the embedding: the RSA family member the
package uses, and a non-RSA stand-in. -/
inductive JwtAlg : Type where
  | RS256
  | HS256
deriving DecidableEq, Repr

/-- A signed token as it travels on the wire, with the compact
serialization abstracted away: the claims, the declared algorithm, and the
identifier of the key pair whose private half produced the signature. -/
structure Jwt : Type where
  claims : TokenClaims
  alg : JwtAlg
  sigKey : Nat
deriving DecidableEq, Repr

/-- One value of the `Authorization` header at token granularity: either a
`Bearer` value carrying a signed token, or some other scheme/value. -/
inductive AuthVal : Type where
  | bearer (tok : Jwt)
  | other (s : String)
deriving DecidableEq, Repr

/-- An `http.Request` as the signer/validator observe it: method, URL path,
the list of `Authorization` header values, and the remaining headers
(opaque, shown untouched by signing). -/
structure Request : Type where
  method : String
  path : String
  auth : List AuthVal
  otherHeaders : List (String × String)
deriving DecidableEq, Repr

/-- Model of `token.Bearer.Get` at token granularity: `Header.Get` returns the first
`Authorization` value; the regexp `^Bearer (.*)$` matches exactly the
`Bearer` scheme values. -/
def tokenBearerGet (r : Request) : Except String Jwt :=
  match r.auth with
  | .bearer t :: _ => .ok t
  | _ => .error "bearer token not found"

/-- Model of `token.Bearer.Set` at token granularity: `Header.Add` appends a new
`Bearer` value after any existing `Authorization` values. -/
def tokenBearerSet (r : Request) (t : Jwt) : Request :=
  { r with auth := r.auth ++ [.bearer t] }

/-- The issuer-to-key-material mapping held by a keychain provider
(`map[string][]byte` used only for point lookups). -/
def KeyMap : Type := String → Option KBytes

/-- The empty map (`make(map[string][]byte)`). -/
def KeyMap.empty : KeyMap := fun _ => none

/-- Go map assignment `m[k] = v`. -/
def KeyMap.insert (m : KeyMap) (k : String) (v : KBytes) : KeyMap :=
  fun x => if x = k then some v else m x

theorem KeyMap.insert_lookup (m : KeyMap) (k : String) (v : KBytes) (x : String) :
    (m.insert k v) x = if x = k then some v else m x := rfl

/-- Model of `keychain.Provider.GetPublicKey` against a concrete mapping (shared body
of `FileProvider.GetPublicKey` and `S3Provider.GetPublicKey`). -/
def KeyMap.getPublicKey (m : KeyMap) (issuer : String) : Except String KBytes :=
  match m issuer with
  | some v => .ok v
  | none => .error ("no data for key " ++ issuer)

/-- The `SignatureValidator` configuration: expected subject, the current
keychain mapping, and whether an `OnError` callback is installed. -/
structure Validator : Type where
  subject : String
  keys : KeyMap
  hasOnError : Bool

/-- Observable outcome of running the validator middleware on one request:
the next handler is invoked; the configured `OnError` callback is invoked
with the given error value (`none` models a nil Go error); the default
`401 Unauthorized` is written; or `SignedRequestHandler` panicked at
construction (empty subject). -/
inductive Outcome : Type where
  | accepted
  | callbackInvoked (e : Option String)
  | deniedDefault
  | panicked
deriving DecidableEq, Repr

/-- Model of `SignatureValidator.handleError`: call `OnError` when configured, else
write `http.StatusUnauthorized`. -/
def handleErrorGo (hasOnError : Bool) (e : Option String) : Outcome :=
  if hasOnError then .callbackInvoked e else .deniedDefault

/-- The `keyFunc` closure of src/validator.go: validate the claims, insist
on an RSA-family method, look the issuer up in the keychain, parse the PEM
bytes. -/
def keyFuncGo (now : Int) (keys : KeyMap) (t : Jwt) : Except String Nat :=
  if ¬ t.claims.validAt now then .error "token is expired"
  else if t.alg ≠ .RS256 then .error "unexpected signing method"
  else
    match keys t.claims.issuer with
    | none => .error ("can't find public key for service " ++ t.claims.issuer)
    | some b => parseRSAPublicKeyFromPEM b

/-- Model of `jwt.ParseWithClaims` (jwt-go v3.2.0 default parser): run the key
function, re-validate the claims, verify the RS256 signature against the
returned public key; symbolically the signature checks out exactly when the
token was signed by the matching private key. -/
def parseWithClaimsGo (now : Int) (keys : KeyMap) (t : Jwt) : Except String TokenClaims :=
  match keyFuncGo now keys t with
  | .error e => .error e
  | .ok pubId =>
    if ¬ t.claims.validAt now then .error "token is expired"
    else if t.sigKey ≠ pubId then .error "crypto/rsa: verification error"
    else .ok t.claims

/-- Model of `SignatureValidator.SignedRequestHandler` applied to one request at
clock reading `now`: panic on empty subject (the construction-time check),
then extract, parse+verify, check the `{method, path, subject}` binding,
and either pass through or hand the triggering error (nil on a binding
mismatch, as in the source) to `handleError`. -/
def signedRequestHandlerGo (v : Validator) (now : Int) (r : Request) : Outcome :=
  if v.subject = "" then .panicked
  else
    match tokenBearerGet r with
    | .error e => handleErrorGo v.hasOnError (some e)
    | .ok tok =>
      match parseWithClaimsGo now v.keys tok with
      | .error e => handleErrorGo v.hasOnError (some e)
      | .ok claims =>
        if r.method ≠ claims.method ∨ r.path ≠ claims.path ∨ claims.subject ≠ v.subject
        then handleErrorGo v.hasOnError none
        else .accepted

/-- The `Signer` configuration of src/signer.go (the token setter is the
default `token.Bearer`; `ttl` is in whole seconds). -/
structure GoSigner : Type where
  issuer : String
  privateRSAKey : KBytes
  ttl : Int

/-- Model of `Signer.Sign` at clock reading `now`: reject missing configuration,
default the TTL to one second, build the claims binding the request's
method and path, sign with the parsed private key, and only on full
success embed the token via `Bearer.Set`. -/
def GoSigner.sign (s : GoSigner) (now : Int) (r : Request) (subject : String) :
    Except String Unit × Request :=
  if s.issuer = "" then (.error "no issuer specified", r)
  else if s.privateRSAKey = .raw "" then (.error "np private rsa key specified", r)
  else
    let t := if s.ttl = 0 then 1 else s.ttl
    let claims : TokenClaims :=
      { method := r.method, path := r.path, issuer := s.issuer, subject := subject
        expiresAt := now + t, issuedAt := 0, notBefore := 0 }
    match parseRSAPrivateKeyFromPEM s.privateRSAKey with
    | .error e => (.error e, r)
    | .ok k => (.ok (), tokenBearerSet r ⟨claims, .RS256, k⟩)

/-! Section: String suffix/trimming helpers (`strings.HasSuffix`, `strings.TrimSuffix`,
`strings.TrimPrefix`) used by the keychain refresh -/

/-- Model of `strings.HasSuffix s suf`. -/
def strHasSuffix (s suf : String) : Bool := decide (suf.data <:+ s.data)

/-- Model of `strings.TrimSuffix s suf`: remove one trailing copy of `suf` when
present, else return `s` unchanged. -/
def strTrimSuffix (s suf : String) : String :=
  if strHasSuffix s suf then String.mk (s.data.take (s.data.length - suf.data.length)) else s

/-- Model of `strings.HasPrefix s pre` (used through `strings.TrimPrefix`). -/
def strHasPre (s pre : String) : Bool := decide (pre.data <+: s.data)

/-- Model of `strings.TrimPrefix s pre`: remove one leading copy of `pre` when
present, else return `s` unchanged. -/
def strTrimPre (s pre : String) : String :=
  if strHasPre s pre then String.mk (s.data.drop pre.data.length) else s

/-- The key-file naming suffix of the keychain. -/
def pemSuffix : String := "_rsa_public.pem"

/-! Section: `keychain.FileProvider` -/

/-- A snapshot of the filesystem as `FileProvider.update` observes it: the
outcome of `ioutil.ReadDir` (entry names), and of `ioutil.ReadFile` per
entry name (the directory path prefix of `path.Join` is fixed, so reads are
keyed by entry name). -/
structure FileSys : Type where
  readDirResult : Except String (List String)
  readFileResult : String → Except String KBytes

/-- Model of `keychain.FileProvider`: the configured directory and the current
issuer-to-bytes mapping. -/
structure FileProvider : Type where
  path : String
  data : KeyMap

/-- Model of `FileProvider.GetPublicKey`. -/
def FileProvider.GetPublicKey (p : FileProvider) (issuer : String) : Except String KBytes :=
  p.data.getPublicKey issuer

/-- The loop body of `FileProvider.update`: skip entries without the
`_rsa_public.pem` suffix, read each matching file (aborting the whole
refresh on a read error), and assign `newVal[name minus suffix] = bytes`. -/
def buildKeyMap (fs : FileSys) : List String → KeyMap → Except String KeyMap
  | [], acc => .ok acc
  | f :: rest, acc =>
    if strHasSuffix f pemSuffix then
      match fs.readFileResult f with
      | .error e => .error ("can't read file: " ++ e)
      | .ok v => buildKeyMap fs rest (acc.insert (strTrimSuffix f pemSuffix) v)
    else buildKeyMap fs rest acc

/-- Model of `FileProvider.update` as a state transformer: list the directory, build
a brand-new mapping, and only on full success assign it to `p.data` (every
error path returns before the assignment, leaving the provider as it
was). -/
def FileProvider.updateGo (p : FileProvider) (fs : FileSys) :
    Except String Unit × FileProvider :=
  match fs.readDirResult with
  | .error e => (.error ("can't read directory: " ++ e), p)
  | .ok files =>
    match buildKeyMap fs files KeyMap.empty with
    | .error e => (.error e, p)
    | .ok newVal => (.ok (), { p with data := newVal })

/-- One scheduling event of `FileProvider.Run`'s select loop: the context
is cancelled, or the coalescing channel fires and an update runs against
the filesystem snapshot observed at that moment. -/
inductive RunEv : Type where
  | cancel
  | refresh (fs : FileSys)

/-- Model of `FileProvider.Run` over a trace of scheduling events: `none` while the
loop is still waiting, `some (.ok ())` when the context is cancelled,
`some (.error e)` when an update fails; a successful update installs the
new mapping and the loop continues. -/
def FileProvider.runTrace (p : FileProvider) : List RunEv → Option (Except String Unit) × FileProvider
  | [] => (none, p)
  | .cancel :: _ => (some (.ok ()), p)
  | .refresh fs :: rest =>
    match p.updateGo fs with
    | (.error e, p') => (some (.error e), p')
    | (.ok _, p') => p'.runTrace rest

/-! Section: `keychain.S3Provider` -/

/-- A snapshot of the S3 bucket as `S3Provider.update` observes it: the
outcome of `ListObjectsV2` under the configured prefix (object keys), and
of `GetObject` plus `ReadAll` per key. -/
structure S3Fs : Type where
  listResult : Except String (List String)
  getObjectResult : String → Except String KBytes

/-- Model of `keychain.S3Provider`: bucket, path prefix and current mapping. -/
structure S3Provider : Type where
  bucket : String
  path : String
  data : KeyMap

/-- Model of `S3Provider.GetPublicKey`. -/
def S3Provider.GetPublicKey (p : S3Provider) (issuer : String) : Except String KBytes :=
  p.data.getPublicKey issuer

/-- The loop body of `S3Provider.update`: skip keys without the
`_rsa_public.pem` suffix, fetch each matching object (aborting the refresh
on any fetch/read error), and assign under the key with the suffix and then
the `path + "/"` prefix trimmed (in that order, as in the source). -/
def buildS3KeyMap (fs : S3Fs) (pre : String) : List String → KeyMap → Except String KeyMap
  | [], acc => .ok acc
  | key :: rest, acc =>
    if strHasSuffix key pemSuffix then
      match fs.getObjectResult key with
      | .error e => .error ("can't load key file: " ++ e)
      | .ok v => buildS3KeyMap fs pre rest (acc.insert (strTrimPre (strTrimSuffix key pemSuffix) pre) v)
    else buildS3KeyMap fs pre rest acc

/-- Model of `S3Provider.update` as a state transformer: list the bucket under
`path + "/"`, build a brand-new mapping, and only on full success assign
it to `p.data`. -/
def S3Provider.updateGo (p : S3Provider) (fs : S3Fs) :
    Except String Unit × S3Provider :=
  match fs.listResult with
  | .error e => (.error ("can't list S3 bucket: " ++ e), p)
  | .ok keys =>
    match buildS3KeyMap fs (p.path ++ "/") keys KeyMap.empty with
    | .error e => (.error e, p)
    | .ok newVal => (.ok (), { p with data := newVal })

/-- One scheduling event of `S3Provider.Run`'s select loop. -/
inductive S3RunEv : Type where
  | cancel
  | refresh (fs : S3Fs)

/-- Model of `S3Provider.Run` over a trace of scheduling events, as
`FileProvider.runTrace`. -/
def S3Provider.runTrace (p : S3Provider) : List S3RunEv → Option (Except String Unit) × S3Provider
  | [] => (none, p)
  | .cancel :: _ => (some (.ok ()), p)
  | .refresh fs :: rest =>
    match p.updateGo fs with
    | (.error e, p') => (some (.error e), p')
    | (.ok _, p') => p'.runTrace rest

/-! Section: `token.Bearer` at character level (src/unnamed/part_001)

For the round-trip properties of the default carrier the header is kept at
full string granularity: the regexp `^Bearer (.*)$` of RE2 (anchored at
text start and end, `.` not matching a newline) matches a value `v` exactly
when `v = "Bearer " ++ rest` with no newline in `rest`, capturing `rest`. -/

/-- A request as `token.Bearer` observes it: the list of values of the
`Authorization` header. -/
structure HRequest : Type where
  authValues : List String
deriving DecidableEq, Repr

/-- Model of `http.Header.Get("Authorization")`: the first value, or `""` when the
header is absent. -/
def headerGetAuth (r : HRequest) : String := r.authValues.headD ""

/-- Model of `regexp.FindStringSubmatch` of `^Bearer (.*)$` against `v`: the capture
group when the pattern matches, `none` otherwise. -/
def bearerMatch (v : String) : Option String :=
  if "Bearer ".data <+: v.data then
    let rest := v.data.drop "Bearer ".data.length
    if '\n' ∈ rest then none else some (String.mk rest)
  else none

/-- Model of `token.Bearer.Get`: error when the regexp does not match or the capture
is empty. -/
def Bearer.get (r : HRequest) : Except String String :=
  match bearerMatch (headerGetAuth r) with
  | none => .error "bearer token not found"
  | some rest => if rest = "" then .error "bearer token not found" else .ok rest

/-- Model of `token.Bearer.Set`: `Header.Add` appends `"Bearer " ++ token` after any
existing `Authorization` values. -/
def Bearer.set (r : HRequest) (token : String) : HRequest :=
  { authValues := r.authValues ++ ["Bearer " ++ token] }

/-! Section: string lemmas for the trimming helpers -/

theorem strMk_append (l m : List Char) : String.mk l ++ String.mk m = String.mk (l ++ m) := rfl

theorem strMk_data (s : String) : String.mk s.data = s := rfl

theorem strHasSuffix_append (i suf : String) : strHasSuffix (i ++ suf) suf = true := by
  simp only [strHasSuffix, String.data_append, decide_eq_true_eq]
  exact List.suffix_append _ _

theorem strTrimSuffix_append (i suf : String) : strTrimSuffix (i ++ suf) suf = i := by
  unfold strTrimSuffix
  rw [if_pos (strHasSuffix_append i suf), String.data_append, List.length_append,
    Nat.add_sub_cancel, List.take_left, strMk_data]

theorem hasSuffix_decomp (f suf : String) (h : strHasSuffix f suf = true) :
    f = strTrimSuffix f suf ++ suf := by
  obtain ⟨t, ht⟩ := of_decide_eq_true h
  unfold strTrimSuffix
  rw [if_pos h]
  apply String.ext
  rw [String.data_append, ← ht, List.length_append, Nat.add_sub_cancel, List.take_left]

theorem strTrimSuffix_eq_iff (f suf i : String) (h : strHasSuffix f suf = true) :
    strTrimSuffix f suf = i ↔ f = i ++ suf := by
  constructor
  · intro hi
    rw [← hi]
    exact hasSuffix_decomp f suf h
  · intro hf
    rw [hf, strTrimSuffix_append]

theorem strTrimPre_full (pre : String) (rest : List Char) :
    strTrimPre (String.mk (pre.data ++ rest)) pre = String.mk rest := by
  unfold strTrimPre strHasPre
  rw [if_pos (by simp), List.drop_left]

/-! Section: theorems for the `token.Bearer` carrier (claims about
`Bearer.Set` / `Bearer.Get`) -/

/-- C9: For every non-empty token string containing no newline and every
request whose `Authorization` header is initially unset, `Bearer.Set`
followed by `Bearer.Get` returns exactly that token with no error. -/
theorem bearer_set_get_roundtrip (tok : String) (r : HRequest)
    (hNe : tok ≠ "") (hNl : '\n' ∉ tok.data) (hAuth : r.authValues = []) :
    Bearer.get (Bearer.set r tok) = .ok tok := by
  unfold Bearer.get Bearer.set headerGetAuth bearerMatch
  rw [hAuth]
  simp only [List.nil_append, List.headD_cons, String.data_append]
  rw [if_pos (List.prefix_append _ _), List.drop_left]
  simp [hNl, hNe, strMk_data]

/-- C9 witness: the round trip at a concrete token and request. -/
theorem bearer_set_get_roundtrip_witness :
    Bearer.get (Bearer.set ⟨[]⟩ "TKN123") = .ok "TKN123" :=
  bearer_set_get_roundtrip "TKN123" ⟨[]⟩ (by decide) (by decide) rfl

/-- C10: For every request already carrying an `Authorization` value,
`Bearer.Set` appends the new `Bearer` value after the existing ones, and a
subsequent `Bearer.Get` still reads the original first value, so the newly
set token is not the one extracted. -/
theorem bearer_set_appends_get_unchanged (tok : String) (r : HRequest)
    (hNe : r.authValues ≠ []) :
    (Bearer.set r tok).authValues = r.authValues ++ ["Bearer " ++ tok] ∧
    Bearer.get (Bearer.set r tok) = Bearer.get r := by
  refine ⟨rfl, ?_⟩
  unfold Bearer.get Bearer.set headerGetAuth
  cases h : r.authValues with
  | nil => exact absurd h hNe
  | cons a as => simp [h]

/-- C10 witness: an already-signed request keeps yielding its original
token after a second `Bearer.Set`. -/
theorem bearer_set_appends_get_unchanged_witness :
    (Bearer.set ⟨["Bearer OLD"]⟩ "NEW").authValues = ["Bearer OLD", "Bearer NEW"] ∧
    Bearer.get (Bearer.set ⟨["Bearer OLD"]⟩ "NEW") = Bearer.get ⟨["Bearer OLD"]⟩ :=
  bearer_set_appends_get_unchanged "NEW" ⟨["Bearer OLD"]⟩ (by decide)

/-! Section: lemmas about the keychain refresh -/

theorem KeyMap.getPublicKey_ok_iff (m : KeyMap) (i : String) (v : KBytes) :
    m.getPublicKey i = .ok v ↔ m i = some v := by
  unfold KeyMap.getPublicKey
  cases h : m i <;> simp

theorem KeyMap.getPublicKey_none (m : KeyMap) (i : String) (h : m i = none) :
    m.getPublicKey i = .error ("no data for key " ++ i) := by
  unfold KeyMap.getPublicKey
  rw [h]

/-- Characterization of the mapping built by the `FileProvider.update`
loop: an identity resolves to bytes exactly when the listing contained the
correspondingly named key file (whose read succeeded with those bytes), or
the accumulator already held it and no listed file shadows it. -/
theorem buildKeyMap_lookup (fs : FileSys) (files : List String) (acc m : KeyMap)
    (h : buildKeyMap fs files acc = .ok m) (i : String) (v : KBytes) :
    m i = some v ↔
      ((i ++ pemSuffix) ∈ files ∧ fs.readFileResult (i ++ pemSuffix) = .ok v) ∨
      (acc i = some v ∧ (i ++ pemSuffix) ∉ files) := by
  induction files generalizing acc with
  | nil =>
    simp only [buildKeyMap] at h
    simp at h
    subst h
    simp
  | cons f rest ih =>
    by_cases hs : strHasSuffix f pemSuffix = true
    · rw [buildKeyMap, if_pos hs] at h
      cases hr : fs.readFileResult f with
      | error e =>
        rw [hr] at h
        exact absurd h (by simp)
      | ok w =>
        rw [hr] at h
        have key := ih (acc.insert (strTrimSuffix f pemSuffix) w) h
        by_cases hf : f = i ++ pemSuffix
        · have htr : strTrimSuffix f pemSuffix = i :=
            (strTrimSuffix_eq_iff f pemSuffix i hs).mpr hf
          subst hf
          rw [hr] at key
          rw [key, KeyMap.insert_lookup, htr, if_pos rfl]
          by_cases hm : (i ++ pemSuffix) ∈ rest <;>
            simp [hm, hr, List.mem_cons, eq_comm]
        · have htr : ¬ (i = strTrimSuffix f pemSuffix) := by
            intro hh
            exact hf ((strTrimSuffix_eq_iff f pemSuffix i hs).mp hh.symm)
          have hf' : ¬ (i ++ pemSuffix = f) := fun hh => hf hh.symm
          rw [key, KeyMap.insert_lookup, if_neg htr]
          simp [List.mem_cons, hf']
    · rw [buildKeyMap, if_neg hs] at h
      have key := ih acc h
      have hf' : ¬ (i ++ pemSuffix = f) := by
        intro hh
        rw [← hh] at hs
        exact hs (strHasSuffix_append i pemSuffix)
      rw [key]
      simp [List.mem_cons, hf']

/-- Under the S3 listing contract — every returned key extends the
configured prefix, and the key-file suffix (when present) lies within the
part after the prefix — the identity computed by `S3Provider.update`
(suffix trimmed first, then prefix) equals `j` exactly when the object key
is `pre ++ j ++ pemSuffix`. -/
theorem s3_identity_eq_iff (pre key j : String)
    (hpre : strHasPre key pre = true)
    (himpl : strHasSuffix key pemSuffix = true →
      strHasSuffix (strTrimPre key pre) pemSuffix = true)
    (hs : strHasSuffix key pemSuffix = true) :
    strTrimPre (strTrimSuffix key pemSuffix) pre = j ↔ key = pre ++ j ++ pemSuffix := by
  obtain ⟨base, hb⟩ := of_decide_eq_true hpre
  have htrimpre_key : strTrimPre key pre = String.mk base := by
    unfold strTrimPre
    rw [if_pos hpre]
    congr 1
    rw [← hb, List.drop_left]
  have hbase : strHasSuffix (String.mk base) pemSuffix = true := htrimpre_key ▸ himpl hs
  obtain ⟨mid, hmid⟩ := of_decide_eq_true hbase
  have hmid' : mid ++ pemSuffix.data = base := hmid
  have hkey : key.data = (pre.data ++ mid) ++ pemSuffix.data := by
    rw [← hb, ← hmid', List.append_assoc]
  have htrim : strTrimSuffix key pemSuffix = String.mk (pre.data ++ mid) := by
    unfold strTrimSuffix
    rw [if_pos hs]
    congr 1
    rw [hkey, List.length_append, Nat.add_sub_cancel, List.take_left]
  rw [htrim, strTrimPre_full pre mid]
  constructor
  · intro hj
    apply String.ext
    rw [hkey, String.data_append, String.data_append, ← hj]
  · intro hk
    have hdata : (pre.data ++ mid) ++ pemSuffix.data = (pre.data ++ j.data) ++ pemSuffix.data := by
      rw [← hkey, hk, String.data_append, String.data_append]
    have : mid = j.data :=
      List.append_cancel_left (List.append_cancel_right hdata)
    rw [this, strMk_data]

/-- Characterization of the mapping built by the `S3Provider.update` loop,
under the S3 listing contract for the returned keys. -/
theorem buildS3KeyMap_lookup (fs : S3Fs) (pre : String) (keys : List String) (acc m : KeyMap)
    (hShape : ∀ key ∈ keys, strHasPre key pre = true ∧
      (strHasSuffix key pemSuffix = true →
        strHasSuffix (strTrimPre key pre) pemSuffix = true))
    (h : buildS3KeyMap fs pre keys acc = .ok m) (j : String) (w : KBytes) :
    m j = some w ↔
      ((pre ++ j ++ pemSuffix) ∈ keys ∧ fs.getObjectResult (pre ++ j ++ pemSuffix) = .ok w) ∨
      (acc j = some w ∧ (pre ++ j ++ pemSuffix) ∉ keys) := by
  induction keys generalizing acc with
  | nil =>
    simp only [buildS3KeyMap] at h
    simp at h
    subst h
    simp
  | cons f rest ih =>
    have hShapeF := hShape f (List.mem_cons_self f rest)
    have hShapeRest : ∀ key ∈ rest, strHasPre key pre = true ∧
        (strHasSuffix key pemSuffix = true →
          strHasSuffix (strTrimPre key pre) pemSuffix = true) :=
      fun key hk => hShape key (List.mem_cons_of_mem f hk)
    by_cases hs : strHasSuffix f pemSuffix = true
    · rw [buildS3KeyMap, if_pos hs] at h
      cases hr : fs.getObjectResult f with
      | error e =>
        rw [hr] at h
        exact absurd h (by simp)
      | ok w' =>
        rw [hr] at h
        have key := ih (acc.insert (strTrimPre (strTrimSuffix f pemSuffix) pre) w') hShapeRest h
        by_cases hf : f = pre ++ j ++ pemSuffix
        · have htr : strTrimPre (strTrimSuffix f pemSuffix) pre = j :=
            (s3_identity_eq_iff pre f j hShapeF.1 hShapeF.2 hs).mpr hf
          subst hf
          rw [hr] at key
          rw [key, KeyMap.insert_lookup, htr, if_pos rfl]
          by_cases hm : (pre ++ j ++ pemSuffix) ∈ rest <;>
            simp [hm, hr, List.mem_cons, eq_comm]
        · have htr : ¬ (j = strTrimPre (strTrimSuffix f pemSuffix) pre) := by
            intro hh
            exact hf ((s3_identity_eq_iff pre f j hShapeF.1 hShapeF.2 hs).mp hh.symm)
          have hf' : ¬ (pre ++ j ++ pemSuffix = f) := fun hh => hf hh.symm
          rw [key, KeyMap.insert_lookup, if_neg htr]
          simp [List.mem_cons, hf']
    · rw [buildS3KeyMap, if_neg hs] at h
      have key := ih acc hShapeRest h
      have hf' : ¬ (pre ++ j ++ pemSuffix = f) := by
        intro hh
        rw [← hh] at hs
        exact hs (strHasSuffix_append (pre ++ j) pemSuffix)
      rw [key]
      simp [List.mem_cons, hf']

theorem fileUpdate_error_keeps_state (p : FileProvider) (fs : FileSys) (e : String)
    (h : (p.updateGo fs).1 = .error e) : (p.updateGo fs).2 = p := by
  unfold FileProvider.updateGo at h ⊢
  cases hd : fs.readDirResult with
  | error e' => simp [hd]
  | ok files =>
    simp only [hd] at h ⊢
    cases hb : buildKeyMap fs files KeyMap.empty with
    | error e' => simp [hb]
    | ok m => simp [hb] at h

theorem s3Update_error_keeps_state (p : S3Provider) (fs : S3Fs) (e : String)
    (h : (p.updateGo fs).1 = .error e) : (p.updateGo fs).2 = p := by
  unfold S3Provider.updateGo at h ⊢
  cases hd : fs.listResult with
  | error e' => simp [hd]
  | ok keys =>
    simp only [hd] at h ⊢
    cases hb : buildS3KeyMap fs (p.path ++ "/") keys KeyMap.empty with
    | error e' => simp [hb]
    | ok m => simp [hb] at h

theorem fileUpdate_ok_new_map (p p' : FileProvider) (fs : FileSys) (files : List String)
    (hList : fs.readDirResult = .ok files)
    (h : p.updateGo fs = (.ok (), p')) :
    ∃ m, buildKeyMap fs files KeyMap.empty = .ok m ∧ p' = { p with data := m } := by
  simp only [FileProvider.updateGo, hList] at h
  cases hb : buildKeyMap fs files KeyMap.empty with
  | error e => simp [hb] at h
  | ok m =>
    simp only [hb] at h
    simp at h
    exact ⟨m, rfl, h.symm⟩

theorem s3Update_ok_new_map (p p' : S3Provider) (fs : S3Fs) (keys : List String)
    (hList : fs.listResult = .ok keys)
    (h : p.updateGo fs = (.ok (), p')) :
    ∃ m, buildS3KeyMap fs (p.path ++ "/") keys KeyMap.empty = .ok m ∧
      p' = { p with data := m } := by
  simp only [S3Provider.updateGo, hList] at h
  cases hb : buildS3KeyMap fs (p.path ++ "/") keys KeyMap.empty with
  | error e => simp [hb] at h
  | ok m =>
    simp only [hb] at h
    simp at h
    exact ⟨m, rfl, h.symm⟩

/-! Section: lemmas about the validator state machine -/

/-- The validator middleware accepts a request carrying a well-signed RS256
token (whose issuer resolves in the keychain to the matching public key)
exactly when the claims pass the temporal checks and the
`{method, path, subject}` binding matches. -/
theorem signedRequestHandler_accepted_iff (v : Validator) (now : Int) (r : Request)
    (c : TokenClaims) (k : Nat) (tl : List AuthVal)
    (hSub : ¬ v.subject = "")
    (hAuth : r.auth = .bearer ⟨c, .RS256, k⟩ :: tl)
    (hPub : v.keys c.issuer = some (.pubPem k)) :
    signedRequestHandlerGo v now r = .accepted ↔
      (c.validAt now = true ∧ r.method = c.method ∧ r.path = c.path ∧
        c.subject = v.subject) := by
  have hGet : tokenBearerGet r = .ok ⟨c, .RS256, k⟩ := by
    unfold tokenBearerGet
    rw [hAuth]
  have hNoCb : ∀ e, handleErrorGo v.hasOnError e ≠ .accepted := by
    intro e
    unfold handleErrorGo
    split <;> simp
  unfold signedRequestHandlerGo
  rw [if_neg hSub]
  simp only [hGet]
  by_cases hv : c.validAt now = true
  · have hparse : parseWithClaimsGo now v.keys ⟨c, .RS256, k⟩ = .ok c := by
      unfold parseWithClaimsGo keyFuncGo
      simp [hv, hPub, parseRSAPublicKeyFromPEM]
    simp only [hparse]
    by_cases hb : r.method ≠ c.method ∨ r.path ≠ c.path ∨ c.subject ≠ v.subject
    · rw [if_pos hb]
      constructor
      · intro hh
        exact absurd hh (hNoCb none)
      · rintro ⟨_, h1, h2, h3⟩
        tauto
    · rw [if_neg hb]
      push_neg at hb
      simp [hv, hb.1, hb.2.1, hb.2.2]
  · have hparse : parseWithClaimsGo now v.keys ⟨c, .RS256, k⟩ = .error "token is expired" := by
      unfold parseWithClaimsGo keyFuncGo
      simp [hv]
    simp only [hparse]
    constructor
    · intro hh
      exact absurd hh (hNoCb _)
    · rintro ⟨h1, _⟩
      exact absurd h1 hv

/-! Section: claim theorems -/

/-- C1 (amended): for every request whose `Authorization` header is
initially unset, every valid RSA key pair, non-empty issuer and non-empty
subject, `Signer.Sign` followed immediately by the validator's handler —
against a keychain mapping the issuer to the matching public key and a
validator expecting that subject — accepts the request, and the request is
unchanged except for the appended `Authorization` bearer token. -/
theorem sign_then_validate_roundtrip
    (sg : GoSigner) (v : Validator) (r : Request) (subject : String) (now : Int) (k : Nat)
    (hIss : ¬ sg.issuer = "")
    (hKey : sg.privateRSAKey = .privPem k)
    (hTtl : 0 ≤ sg.ttl)
    (hPub : v.keys sg.issuer = some (.pubPem k))
    (hSubV : v.subject = subject)
    (hSubNe : ¬ subject = "")
    (hAuth : r.auth = []) :
    (sg.sign now r subject).1 = .ok () ∧
    ((sg.sign now r subject).2).method = r.method ∧
    ((sg.sign now r subject).2).path = r.path ∧
    ((sg.sign now r subject).2).otherHeaders = r.otherHeaders ∧
    (∃ tok : Jwt, ((sg.sign now r subject).2).auth = r.auth ++ [.bearer tok]) ∧
    signedRequestHandlerGo v now ((sg.sign now r subject).2) = .accepted := by
  have hKeyNe : ¬ sg.privateRSAKey = .raw "" := by
    rw [hKey]
    simp
  have hsign : sg.sign now r subject =
      (.ok (), tokenBearerSet r ⟨⟨r.method, r.path, sg.issuer, subject,
        now + (if sg.ttl = 0 then 1 else sg.ttl), 0, 0⟩, .RS256, k⟩) := by
    unfold GoSigner.sign
    rw [if_neg hIss, if_neg hKeyNe, hKey]
    simp [parseRSAPrivateKeyFromPEM]
  rw [hsign]
  have hT : 0 ≤ (if sg.ttl = 0 then 1 else sg.ttl) := by
    split
    · norm_num
    · exact hTtl
  have hvalid : TokenClaims.validAt
      ⟨r.method, r.path, sg.issuer, subject,
        now + (if sg.ttl = 0 then 1 else sg.ttl), 0, 0⟩ now = true := by
    unfold TokenClaims.validAt verifyExp verifyIat verifyNbf
    by_cases h0 : now + (if sg.ttl = 0 then 1 else sg.ttl) = 0
    · simp [h0]
    · simp only [h0]
      simp
      omega
  have hAuth' : (tokenBearerSet r ⟨⟨r.method, r.path, sg.issuer, subject,
      now + (if sg.ttl = 0 then 1 else sg.ttl), 0, 0⟩, .RS256, k⟩).auth =
      .bearer ⟨⟨r.method, r.path, sg.issuer, subject,
        now + (if sg.ttl = 0 then 1 else sg.ttl), 0, 0⟩, .RS256, k⟩ :: [] := by
    unfold tokenBearerSet
    rw [hAuth]
    rfl
  have hSub' : ¬ v.subject = "" := by
    rw [hSubV]
    exact hSubNe
  refine ⟨rfl, rfl, rfl, rfl, ⟨_, rfl⟩, ?_⟩
  rw [signedRequestHandler_accepted_iff v now _ _ k [] hSub' hAuth' hPub]
  exact ⟨hvalid, rfl, rfl, hSubV.symm⟩

/-- C1 witness: concrete sign-then-validate acceptance. -/
theorem sign_then_validate_roundtrip_witness :
    signedRequestHandlerGo ⟨"svcB", KeyMap.empty.insert "svcA" (.pubPem 5), false⟩ 1000
      ((GoSigner.sign ⟨"svcA", .privPem 5, 1⟩ 1000
        ⟨"GET", "/x", [], [("X-Req-Id", "1")]⟩ "svcB").2) = .accepted :=
  (sign_then_validate_roundtrip ⟨"svcA", .privPem 5, 1⟩
    ⟨"svcB", KeyMap.empty.insert "svcA" (.pubPem 5), false⟩
    ⟨"GET", "/x", [], [("X-Req-Id", "1")]⟩ "svcB" 1000 5
    (by decide) rfl (by decide) rfl rfl (by decide) rfl).2.2.2.2.2

/-- C1 counterexample: the claim as stated fails for a request that already
carries an `Authorization` value — signing succeeds and appends a valid
bearer token, but validation reads the first (old) value and denies. -/
theorem sign_then_validate_counterexample :
    (GoSigner.sign ⟨"svcA", .privPem 5, 1⟩ 1000
      ⟨"GET", "/x", [.other "Basic zz"], []⟩ "svcB").1 = .ok () ∧
    signedRequestHandlerGo ⟨"svcB", KeyMap.empty.insert "svcA" (.pubPem 5), false⟩ 1000
      ((GoSigner.sign ⟨"svcA", .privPem 5, 1⟩ 1000
        ⟨"GET", "/x", [.other "Basic zz"], []⟩ "svcB").2) = .deniedDefault :=
  ⟨rfl, rfl⟩

/-- C2 (amended): for a signed token with a non-zero expiration and all
other checks passing, validation accepts exactly while the verification
time is at or before `expiresAt`: it rejects at every time strictly after,
accepts at every time strictly before, and also accepts when the
verification time equals `expiresAt` (the boundary is inclusive — jwt-go's
`verifyExp` uses `now <= exp`). -/
theorem validate_expiry_boundary
    (v : Validator) (r : Request) (c : TokenClaims) (k : Nat) (now : Int)
    (hSub : ¬ v.subject = "")
    (hAuth : r.auth = [.bearer ⟨c, .RS256, k⟩])
    (hPub : v.keys c.issuer = some (.pubPem k))
    (hExp : c.expiresAt ≠ 0)
    (hIat : c.issuedAt = 0)
    (hNbf : c.notBefore = 0)
    (hM : r.method = c.method) (hP : r.path = c.path) (hS : c.subject = v.subject) :
    signedRequestHandlerGo v now r = .accepted ↔ now ≤ c.expiresAt := by
  rw [signedRequestHandler_accepted_iff v now r c k [] hSub hAuth hPub]
  unfold TokenClaims.validAt verifyExp verifyIat verifyNbf
  simp [hExp, hIat, hNbf, hM, hP, hS]

/-- C2 witness: a concrete token accepted strictly before expiry. -/
theorem validate_expiry_boundary_witness :
    signedRequestHandlerGo ⟨"svcB", KeyMap.empty.insert "svcA" (.pubPem 7), false⟩ 50
      ⟨"GET", "/y", [.bearer ⟨⟨"GET", "/y", "svcA", "svcB", 100, 0, 0⟩, .RS256, 7⟩], []⟩
      = .accepted :=
  (validate_expiry_boundary ⟨"svcB", KeyMap.empty.insert "svcA" (.pubPem 7), false⟩
    ⟨"GET", "/y", [.bearer ⟨⟨"GET", "/y", "svcA", "svcB", 100, 0, 0⟩, .RS256, 7⟩], []⟩
    ⟨"GET", "/y", "svcA", "svcB", 100, 0, 0⟩ 7 50
    (by decide) rfl rfl (by decide) rfl rfl rfl rfl rfl).mpr (by decide)

/-- C2 counterexample: at verification time exactly equal to `expiresAt`
the code accepts, where the claim demands rejection. -/
theorem validate_expiry_boundary_counterexample :
    signedRequestHandlerGo ⟨"svcB", KeyMap.empty.insert "svcA" (.pubPem 7), false⟩ 100
      ⟨"GET", "/y", [.bearer ⟨⟨"GET", "/y", "svcA", "svcB", 100, 0, 0⟩, .RS256, 7⟩], []⟩
      = .accepted := rfl

/-- C3 (amended): a token whose claims carry no expiration timestamp
(`expiresAt` zero/absent) is NOT rejected for that reason: jwt-go's
`verifyExp` with `required = false` skips the check entirely, so with
signature and binding valid the request is accepted at every verification
time. -/
theorem validate_missing_expiry_accepted
    (v : Validator) (r : Request) (c : TokenClaims) (k : Nat) (now : Int)
    (hSub : ¬ v.subject = "")
    (hAuth : r.auth = [.bearer ⟨c, .RS256, k⟩])
    (hPub : v.keys c.issuer = some (.pubPem k))
    (hExp : c.expiresAt = 0)
    (hIat : c.issuedAt = 0)
    (hNbf : c.notBefore = 0)
    (hM : r.method = c.method) (hP : r.path = c.path) (hS : c.subject = v.subject) :
    signedRequestHandlerGo v now r = .accepted := by
  rw [signedRequestHandler_accepted_iff v now r c k [] hSub hAuth hPub]
  refine ⟨?_, hM, hP, hS⟩
  unfold TokenClaims.validAt verifyExp verifyIat verifyNbf
  simp [hExp, hIat, hNbf]

/-- C3 witness: a concrete expiration-free token accepted. -/
theorem validate_missing_expiry_accepted_witness :
    signedRequestHandlerGo ⟨"svcB", KeyMap.empty.insert "svcA" (.pubPem 9), false⟩ 123456
      ⟨"PUT", "/w", [.bearer ⟨⟨"PUT", "/w", "svcA", "svcB", 0, 0, 0⟩, .RS256, 9⟩], []⟩
      = .accepted :=
  validate_missing_expiry_accepted
    ⟨"svcB", KeyMap.empty.insert "svcA" (.pubPem 9), false⟩
    ⟨"PUT", "/w", [.bearer ⟨⟨"PUT", "/w", "svcA", "svcB", 0, 0, 0⟩, .RS256, 9⟩], []⟩
    ⟨"PUT", "/w", "svcA", "svcB", 0, 0, 0⟩ 9 123456
    (by decide) rfl rfl rfl rfl rfl rfl rfl rfl

/-- C3 counterexample: the claim as stated demands rejection of a token
without expiration; the code accepts this concrete one. -/
theorem validate_missing_expiry_counterexample :
    signedRequestHandlerGo ⟨"svcB", KeyMap.empty.insert "svcA" (.pubPem 2), false⟩ 777
      ⟨"DELETE", "/d", [.bearer ⟨⟨"DELETE", "/d", "svcA", "svcB", 0, 0, 0⟩, .RS256, 2⟩], []⟩
      = .accepted := rfl

/-- C4 (code bug): on a method binding mismatch with `OnError` configured,
the handler is invoked with the nil `err` left over from the successful
parse — not with a binding-mismatch error as the spec states (the source
reuses the `err` variable at validator.go line 48).  With no handler
configured the default 401 denial is written and the next handler is not
invoked, as claimed. -/
theorem binding_mismatch_invokes_callback_with_nil :
    signedRequestHandlerGo ⟨"svcB", KeyMap.empty.insert "svcA" (.pubPem 3), true⟩ 10
      ⟨"POST", "/z", [.bearer ⟨⟨"GET", "/z", "svcA", "svcB", 100, 0, 0⟩, .RS256, 3⟩], []⟩
      = .callbackInvoked none ∧
    signedRequestHandlerGo ⟨"svcB", KeyMap.empty.insert "svcA" (.pubPem 3), false⟩ 10
      ⟨"POST", "/z", [.bearer ⟨⟨"GET", "/z", "svcA", "svcB", 100, 0, 0⟩, .RS256, 3⟩], []⟩
      = .deniedDefault :=
  ⟨rfl, rfl⟩

/-- C5: a refresh attempt that fails — listing the key source or reading a
single matching key file — leaves the provider's issuer-to-key mapping
exactly as it was, for both the file and the S3 provider, so every issuer
resolvable before the failed refresh still resolves to its prior bytes. -/
theorem refresh_error_preserves_mapping
    (p : FileProvider) (fs : FileSys) (e : String)
    (q : S3Provider) (gs : S3Fs) (e' : String)
    (hp : (p.updateGo fs).1 = .error e)
    (hq : (q.updateGo gs).1 = .error e') :
    (p.updateGo fs).2 = p ∧
    (∀ i, ((p.updateGo fs).2).GetPublicKey i = p.GetPublicKey i) ∧
    (q.updateGo gs).2 = q ∧
    (∀ j, ((q.updateGo gs).2).GetPublicKey j = q.GetPublicKey j) := by
  have h1 := fileUpdate_error_keeps_state p fs e hp
  have h2 := s3Update_error_keeps_state q gs e' hq
  exact ⟨h1, fun i => by rw [h1], h2, fun j => by rw [h2]⟩

/-- C5 witness: a directory-listing failure (file provider) and a
key-object read failure (S3 provider) both leave the prior mapping
authoritative. -/
theorem refresh_error_preserves_mapping_witness :
    ((⟨"/keys", KeyMap.empty.insert "a" (.raw "A")⟩ : FileProvider).updateGo
        ⟨.error "boom", fun _ => .ok (.raw "X")⟩).2
      = ⟨"/keys", KeyMap.empty.insert "a" (.raw "A")⟩ ∧
    ((⟨"bkt", "p", KeyMap.empty.insert "b" (.raw "B")⟩ : S3Provider).updateGo
        ⟨.ok ["p/c_rsa_public.pem"], fun _ => .error "denied"⟩).2
      = ⟨"bkt", "p", KeyMap.empty.insert "b" (.raw "B")⟩ :=
  ⟨(refresh_error_preserves_mapping
      ⟨"/keys", KeyMap.empty.insert "a" (.raw "A")⟩
      ⟨.error "boom", fun _ => .ok (.raw "X")⟩ "can't read directory: boom"
      ⟨"bkt", "p", KeyMap.empty.insert "b" (.raw "B")⟩
      ⟨.ok ["p/c_rsa_public.pem"], fun _ => .error "denied"⟩ "can't load key file: denied"
      rfl rfl).1,
   (refresh_error_preserves_mapping
      ⟨"/keys", KeyMap.empty.insert "a" (.raw "A")⟩
      ⟨.error "boom", fun _ => .ok (.raw "X")⟩ "can't read directory: boom"
      ⟨"bkt", "p", KeyMap.empty.insert "b" (.raw "B")⟩
      ⟨.ok ["p/c_rsa_public.pem"], fun _ => .error "denied"⟩ "can't load key file: denied"
      rfl rfl).2.2.1⟩

/-- C7: for both providers' run loops, a failing refresh terminates the
loop immediately — the trace's remaining events are never processed and
the update's error is returned with the state untouched — while a
cancellation event makes the loop exit with no error. -/
theorem run_terminal_behavior
    (p : FileProvider) (fs : FileSys) (rest : List RunEv) (e : String)
    (q : S3Provider) (gs : S3Fs) (rest' : List S3RunEv) (e' : String)
    (hp : (p.updateGo fs).1 = .error e)
    (hq : (q.updateGo gs).1 = .error e') :
    p.runTrace (.refresh fs :: rest) = (some (.error e), p) ∧
    p.runTrace (.cancel :: rest) = (some (.ok ()), p) ∧
    q.runTrace (.refresh gs :: rest') = (some (.error e'), q) ∧
    q.runTrace (.cancel :: rest') = (some (.ok ()), q) := by
  have h1 : p.updateGo fs = (.error e, p) :=
    Prod.ext hp (fileUpdate_error_keeps_state p fs e hp)
  have h2 : q.updateGo gs = (.error e', q) :=
    Prod.ext hq (s3Update_error_keeps_state q gs e' hq)
  refine ⟨?_, rfl, ?_, rfl⟩
  · simp only [FileProvider.runTrace, h1]
  · simp only [S3Provider.runTrace, h2]

/-- C7 witness: concrete failing refreshes terminate the traces at once
(the pending events are dropped), and cancellations exit cleanly. -/
theorem run_terminal_behavior_witness :
    (⟨"/keys", KeyMap.empty⟩ : FileProvider).runTrace
        [.refresh ⟨.error "boom", fun _ => .ok (.raw "X")⟩, .cancel]
      = (some (.error "can't read directory: boom"), ⟨"/keys", KeyMap.empty⟩) ∧
    (⟨"bkt", "p", KeyMap.empty⟩ : S3Provider).runTrace
        [.refresh ⟨.error "nolist", fun _ => .ok (.raw "X")⟩, .cancel]
      = (some (.error "can't list S3 bucket: nolist"), ⟨"bkt", "p", KeyMap.empty⟩) :=
  ⟨(run_terminal_behavior ⟨"/keys", KeyMap.empty⟩ ⟨.error "boom", fun _ => .ok (.raw "X")⟩
      [.cancel] "can't read directory: boom"
      ⟨"bkt", "p", KeyMap.empty⟩ ⟨.error "nolist", fun _ => .ok (.raw "X")⟩
      [.cancel] "can't list S3 bucket: nolist" rfl rfl).1,
   (run_terminal_behavior ⟨"/keys", KeyMap.empty⟩ ⟨.error "boom", fun _ => .ok (.raw "X")⟩
      [.cancel] "can't read directory: boom"
      ⟨"bkt", "p", KeyMap.empty⟩ ⟨.error "nolist", fun _ => .ok (.raw "X")⟩
      [.cancel] "can't list S3 bucket: nolist" rfl rfl).2.2.1⟩

/-- C6: after one successful refresh, `getPublicKey i` succeeds with
exactly the stored bytes if and only if the key source listed an entry
named `i ++ "_rsa_public.pem"` (for the S3 provider, named
`path ++ "/" ++ i ++ "_rsa_public.pem"`, the configured prefix being
stripped); entries without the suffix are ignored, and any other identity
fails with the unknown-issuer error.  The S3 half assumes the listing
contract: every returned key extends the configured prefix and the suffix,
when present, lies within the part after the prefix. -/
theorem getPublicKey_after_refresh
    (p : FileProvider) (fs : FileSys) (files : List String) (p' : FileProvider)
    (q : S3Provider) (gs : S3Fs) (keys : List String) (q' : S3Provider)
    (hList : fs.readDirResult = .ok files)
    (hUpd : p.updateGo fs = (.ok (), p'))
    (hKeys : gs.listResult = .ok keys)
    (hShape : ∀ key ∈ keys, strHasPre key (q.path ++ "/") = true ∧
      (strHasSuffix key pemSuffix = true →
        strHasSuffix (strTrimPre key (q.path ++ "/")) pemSuffix = true))
    (hUpd' : q.updateGo gs = (.ok (), q'))
    (i j : String) (v w : KBytes) :
    (p'.GetPublicKey i = .ok v ↔
      ((i ++ pemSuffix) ∈ files ∧ fs.readFileResult (i ++ pemSuffix) = .ok v)) ∧
    ((i ++ pemSuffix) ∉ files → p'.GetPublicKey i = .error ("no data for key " ++ i)) ∧
    (q'.GetPublicKey j = .ok w ↔
      ((q.path ++ "/" ++ j ++ pemSuffix) ∈ keys ∧
        gs.getObjectResult (q.path ++ "/" ++ j ++ pemSuffix) = .ok w)) := by
  obtain ⟨m, hm, hp'⟩ := fileUpdate_ok_new_map p p' fs files hList hUpd
  obtain ⟨m', hm', hq'⟩ := s3Update_ok_new_map q q' gs keys hKeys hUpd'
  subst hp'
  subst hq'
  have hlk := fun vv => buildKeyMap_lookup fs files KeyMap.empty m hm i vv
  have hlk' := buildS3KeyMap_lookup gs (q.path ++ "/") keys KeyMap.empty m' hShape hm' j w
  refine ⟨?_, ?_, ?_⟩
  · show KeyMap.getPublicKey m i = .ok v ↔ _
    rw [KeyMap.getPublicKey_ok_iff, hlk v]
    simp [KeyMap.empty]
  · intro hni
    apply KeyMap.getPublicKey_none
    cases ho : m i with
    | none => exact ho
    | some vv =>
      exfalso
      rcases (hlk vv).mp ho with ⟨hmem, _⟩ | ⟨hacc, _⟩
      · exact hni hmem
      · exact Option.noConfusion hacc
  · show KeyMap.getPublicKey m' j = .ok w ↔ _
    rw [KeyMap.getPublicKey_ok_iff, hlk']
    simp [KeyMap.empty]

/-- C6 witness: the spec's example — entries `a_rsa_public.pem`,
`b_rsa_public.pem`, `not_a_key.txt`; after one refresh `a` resolves to the
read bytes, `not_a_key` is unknown; and an S3 key under prefix `p/`
resolves after stripping. -/
theorem getPublicKey_after_refresh_witness :
    ((⟨"/keys", KeyMap.empty⟩ : FileProvider).updateGo
        ⟨.ok ["a_rsa_public.pem", "b_rsa_public.pem", "not_a_key.txt"],
         fun _ => .ok (.raw "K")⟩).2.GetPublicKey "a" = .ok (.raw "K") ∧
    ((⟨"/keys", KeyMap.empty⟩ : FileProvider).updateGo
        ⟨.ok ["a_rsa_public.pem", "b_rsa_public.pem", "not_a_key.txt"],
         fun _ => .ok (.raw "K")⟩).2.GetPublicKey "not_a_key"
      = .error "no data for key not_a_key" ∧
    ((⟨"bkt", "p", KeyMap.empty⟩ : S3Provider).updateGo
        ⟨.ok ["p/c_rsa_public.pem", "p/note.txt"],
         fun _ => .ok (.raw "S")⟩).2.GetPublicKey "c" = .ok (.raw "S") :=
  ⟨(getPublicKey_after_refresh ⟨"/keys", KeyMap.empty⟩
      ⟨.ok ["a_rsa_public.pem", "b_rsa_public.pem", "not_a_key.txt"], fun _ => .ok (.raw "K")⟩
      ["a_rsa_public.pem", "b_rsa_public.pem", "not_a_key.txt"] _
      ⟨"bkt", "p", KeyMap.empty⟩
      ⟨.ok ["p/c_rsa_public.pem", "p/note.txt"], fun _ => .ok (.raw "S")⟩
      ["p/c_rsa_public.pem", "p/note.txt"] _
      rfl rfl rfl (by decide) rfl "a" "c" (.raw "K") (.raw "S")).1.mpr ⟨by decide, rfl⟩,
   (getPublicKey_after_refresh ⟨"/keys", KeyMap.empty⟩
      ⟨.ok ["a_rsa_public.pem", "b_rsa_public.pem", "not_a_key.txt"], fun _ => .ok (.raw "K")⟩
      ["a_rsa_public.pem", "b_rsa_public.pem", "not_a_key.txt"] _
      ⟨"bkt", "p", KeyMap.empty⟩
      ⟨.ok ["p/c_rsa_public.pem", "p/note.txt"], fun _ => .ok (.raw "S")⟩
      ["p/c_rsa_public.pem", "p/note.txt"] _
      rfl rfl rfl (by decide) rfl "not_a_key" "c" (.raw "K") (.raw "S")).2.1 (by decide),
   (getPublicKey_after_refresh ⟨"/keys", KeyMap.empty⟩
      ⟨.ok ["a_rsa_public.pem", "b_rsa_public.pem", "not_a_key.txt"], fun _ => .ok (.raw "K")⟩
      ["a_rsa_public.pem", "b_rsa_public.pem", "not_a_key.txt"] _
      ⟨"bkt", "p", KeyMap.empty⟩
      ⟨.ok ["p/c_rsa_public.pem", "p/note.txt"], fun _ => .ok (.raw "S")⟩
      ["p/c_rsa_public.pem", "p/note.txt"] _
      rfl rfl rfl (by decide) rfl "a" "c" (.raw "K") (.raw "S")).2.2.mpr ⟨by decide, rfl⟩⟩
